import Mathlib

/-!
Verification development for the a2a-js task/streaming engine.

The TypeScript sources are embedded shallowly:
* `StreamingResponseQueue` (src/server/streaming_response_queue.ts) becomes an
  explicit state record with `push` / `next` / `close` transition functions; a
  suspended consumer is represented by the numeric id of its stored resolver
  closure, and resolver invocations are recorded in a log.
* `InMemoryTaskStore` (src/server/task_store.ts) becomes an association list
  whose keys are `Option String`, because the JS `Map` is keyed by the runtime
  `id` property of the stored object, which may be absent (`undefined`).
* The request handlers (src/server/request_handler.ts) become pure functions
  from store state and request to new store state and response; the executor
  collaborator is a function parameter.
* The SSE wire codec (src/server/app.ts write loop, src/client SSE decode
  loops) is embedded over `List Char`, with `JSON.stringify` / `JSON.parse`
  abstracted as a serializer/parser pair, since JSON encoding is supplied by
  the host platform and not by this repository.
-/

namespace A2A

/-! ## Protocol data model (src/types/index.ts) -/

/-- TaskState enum from src/types/index.ts. -/
inductive TaskState
  | active
  | completed
  | failed
  | canceled
deriving DecidableEq, Repr

/-- Message from src/types/index.ts: `messageId`, `role`, `parts` (abbreviated
to the concatenated text payload), optional `taskId`, optional `final`. -/
structure Message where
  messageId : String
  role : String
  text : String
  taskId : Option String := none
  final : Option Bool := none
deriving DecidableEq, Repr

/-- A runtime task-shaped object as the handlers see it.  The declared `Task`
interface of src/types/index.ts has a required `taskId` and no `id` field, but
the handlers duck-type (`"taskId" in response.result`) and the store keys by
the runtime `id` property, so every field that any code path reads is optional
here, exactly as on a dynamic JS object.  A value conforming to the declared
`Task` interface has `id = none` and `taskId = some _`.  (`artifacts` and
`statusMessage` are never read by the embedded operations and are omitted.) -/
structure TaskObj where
  id : Option String := none
  taskId : Option String := none
  state : Option TaskState := none
  createdAt : String := ""
  updatedAt : String := ""
  messages : List Message := []
deriving DecidableEq, Repr

/-- JSON-RPC request/response id: string, number, null or absent; numbers are
represented by their decimal strings. -/
abbrev RequestId := Option String

/-- JSON-RPC / A2A error object.  A2A errors (src/types/index.ts `A2AError`)
carry a `type` tag; plain JSON-RPC errors (such as the InternalError produced
by the streaming catch branch) do not. -/
structure RpcError where
  type : Option String := none
  code : Int
  message : String
deriving DecidableEq, Repr

/-- The `TaskNotFoundError` constant from src/types/index.ts (code `-32000`). -/
def TaskNotFoundError : RpcError :=
  { type := some ("TaskNotFoundError"), code := -32000, message := "Task not found" }

/-- The `UnsupportedOperationError` constant from src/types/index.ts. -/
def UnsupportedOperationError : RpcError :=
  { type := some ("UnsupportedOperationError"), code := -32001, message := "Operation not supported" }

/-- A JSON-RPC response: success envelope `{jsonrpc, id, result}` or error
envelope `{jsonrpc, id, error}` (the constant `jsonrpc: "2.0"` is implicit). -/
inductive RpcResponse (α : Type)
  | success (id : RequestId) (result : α)
  | error (id : RequestId) (err : RpcError)
deriving DecidableEq, Repr

/-! ## Streaming response queue (src/server/streaming_response_queue.ts)

The queue's asynchronous behaviour is embedded as a state machine.  A call to
`next()` on an empty open queue stores a resolver closure in `waitResolve`;
we represent that closure by a caller-chosen numeric id (each JS call site
creates a fresh closure, so distinct calls carry distinct ids).  `resolved`
logs every invocation of a stored resolver, i.e. every completion of a
previously suspended `next()` promise. -/

structure StreamingResponseQueue (T : Type) where
  queue : List T := []
  waitResolve : Option Nat := none
  closed : Bool := false
  resolved : List (Nat × Option T) := []
deriving DecidableEq, Repr

namespace StreamingResponseQueue

/-- Outcome of a `next()` call: an immediately resolved promise (with an item
or the `null` sentinel), or suspension after storing the resolver. -/
inductive NextOutcome (T : Type)
  | immediate (value : Option T)
  | suspended
deriving DecidableEq, Repr

/-- Method `isClosed()`. -/
def isClosed (s : StreamingResponseQueue T) : Bool := s.closed

/-- Method `push(item)`: refuses when closed; hands the item directly to a suspended
consumer when one is registered; otherwise buffers it.  Returns the new state
and the boolean result. -/
def push (s : StreamingResponseQueue T) (item : T) : StreamingResponseQueue T × Bool :=
  if s.closed then (s, false)
  else
    match s.waitResolve with
    | some rid =>
      ({ s with waitResolve := none, resolved := s.resolved ++ [(rid, some item)] }, true)
    | none => ({ s with queue := s.queue ++ [item] }, true)

/-- Method `next()`: returns `null` as soon as the queue is closed (before looking at
the buffer), else shifts the buffer head, else suspends, storing the caller's
resolver id (overwriting any previously stored resolver). -/
def next (s : StreamingResponseQueue T) (rid : Nat) :
    StreamingResponseQueue T × NextOutcome T :=
  if s.closed then (s, .immediate none)
  else
    match s.queue with
    | item :: rest => ({ s with queue := rest }, .immediate (some item))
    | [] => ({ s with waitResolve := some rid }, .suspended)

/-- Method `close()`: marks the queue closed and wakes a suspended consumer with the
`null` sentinel. -/
def close (s : StreamingResponseQueue T) : StreamingResponseQueue T :=
  match s.waitResolve with
  | some rid =>
    { s with closed := true, waitResolve := none, resolved := s.resolved ++ [(rid, none)] }
  | none => { s with closed := true }

/-- Repeatedly call `next()` (with successive fresh resolver ids) and collect
the immediately delivered items, stopping at the first call that does not
immediately deliver an item. -/
def nextImmediates (s : StreamingResponseQueue T) (fuel rid0 : Nat) : List T :=
  match fuel with
  | 0 => []
  | n + 1 =>
    match next s rid0 with
    | (s1, .immediate (some v)) => v :: nextImmediates s1 n (rid0 + 1)
    | _ => []

/-- An operation performed on the queue by producer or consumer. -/
inductive Op (T : Type)
  | push (item : T)
  | close
  | next (rid : Nat)
deriving DecidableEq, Repr

/-- State reached after one operation (return values discarded). -/
def runOp (s : StreamingResponseQueue T) : Op T → StreamingResponseQueue T
  | .push item => (push s item).1
  | .close => close s
  | .next rid => (next s rid).1

/-- State reached after a sequence of operations. -/
def runOps (s : StreamingResponseQueue T) (ops : List (Op T)) : StreamingResponseQueue T :=
  ops.foldl runOp s

end StreamingResponseQueue

/-! ## Task store (src/server/task_store.ts) -/

/-- The JS `Map<string, Task>` backing `InMemoryTaskStore`.  Since
`save` keys entries by the runtime `id` property — which is absent on objects
conforming to the declared `Task` interface — the key type is `Option String`
(`none` standing for the key `undefined`). -/
def TaskMap : Type := List (Option String × TaskObj)

/-- Method `Map.prototype.get`. -/
def TaskMap.get : TaskMap → Option String → Option TaskObj
  | [], _ => none
  | (k, t) :: rest, q => if k = q then some t else TaskMap.get rest q

/-- Method `Map.prototype.set` (last write wins). -/
def TaskMap.set (m : TaskMap) (k : Option String) (t : TaskObj) : TaskMap :=
  (k, t) :: m

namespace InMemoryTaskStore

/-- Method `get(id)`: looks the task up under the string key `id`. -/
def get (m : TaskMap) (id : String) : Option TaskObj :=
  TaskMap.get m (some id)

/-- Method `save(task)`: `this.tasks.set(task.id, task)` — keyed by the runtime `id`
property, not by `taskId`. -/
def save (m : TaskMap) (task : TaskObj) : TaskMap :=
  TaskMap.set m task.id task

end InMemoryTaskStore

/-! ## Request handlers (src/server/request_handler.ts) -/

/-- Params `TaskQueryParams` / `TaskIdParams`: a required string `id`. -/
structure TaskIdParams where
  id : String
deriving DecidableEq, Repr

/-- Request `GetTaskRequest` (method `tasks/get`). -/
structure GetTaskRequest where
  id : RequestId
  params : TaskIdParams
deriving DecidableEq, Repr

/-- Request `CancelTaskRequest` (method `tasks/cancel`). -/
structure CancelTaskRequest where
  id : RequestId
  params : TaskIdParams
deriving DecidableEq, Repr

/-- Params `MessageSendParams`. -/
structure MessageSendParams where
  message : Message
deriving DecidableEq, Repr

/-- Request `SendMessageRequest` (method `message/send`). -/
structure SendMessageRequest where
  id : RequestId
  params : MessageSendParams
deriving DecidableEq, Repr

/-- Request `SendMessageStreamingRequest` (method `message/sendStream`). -/
structure SendMessageStreamingRequest where
  id : RequestId
  params : MessageSendParams
deriving DecidableEq, Repr

/-- Handler `DefaultA2ARequestHandler.onGetTask`: store read; a miss answers with the
`TaskNotFoundError` constant, a hit with the stored task. -/
def onGetTask (store : TaskMap) (request : GetTaskRequest) : RpcResponse TaskObj :=
  match InMemoryTaskStore.get store request.params.id with
  | none => .error request.id TaskNotFoundError
  | some task => .success request.id task

/-- Handler `DefaultA2ARequestHandler.onCancelTask`: store read (miss answers
`TaskNotFoundError`); otherwise the executor's `onCancel` response is returned
unchanged and its `result` is saved exactly when the response is a success. -/
def onCancelTask (store : TaskMap) (request : CancelTaskRequest)
    (onCancel : CancelTaskRequest → TaskObj → RpcResponse TaskObj) :
    TaskMap × RpcResponse TaskObj :=
  match InMemoryTaskStore.get store request.params.id with
  | none => (store, .error request.id TaskNotFoundError)
  | some task =>
    match onCancel request task with
    | .success rid result => (InMemoryTaskStore.save store result, .success rid result)
    | .error rid e => (store, .error rid e)

/-- Handler `DefaultA2ARequestHandler.onMessageSend`.  When the inbound message names a
task id, the stored task is fetched and the message appended to it
(`_appendMessageToTask` mutates the object held by the `Map`, so the store
entry changes too; `now` stands for `new Date().toISOString()`).  The executor
runs with that task; a success whose result has a `taskId` property is saved —
keyed, through `save`, by the result's runtime `id` property. -/
def onMessageSend (store : TaskMap) (request : SendMessageRequest)
    (exec : SendMessageRequest → Option TaskObj → RpcResponse TaskObj)
    (now : String) : TaskMap × RpcResponse TaskObj :=
  let (store1, task1) :=
    match request.params.message.taskId with
    | some tid =>
      match InMemoryTaskStore.get store tid with
      | some t =>
        let t1 := { t with messages := t.messages ++ [request.params.message], updatedAt := now }
        (TaskMap.set store (some tid) t1, some t1)
      | none => (store, none)
    | none => (store, none)
  let response := exec request task1
  match response with
  | .success _ result =>
    if result.taskId.isSome then (InMemoryTaskStore.save store1 result, response)
    else (store1, response)
  | .error _ _ => (store1, response)

/-! ## Streaming dispatcher (src/server/request_handler.ts `_setupSSEConsumer`)

The executor's `onMessageStream` generator is embedded as the list of
envelopes it yields before finishing, together with an optional exception
message thrown after those yields.  The consumer's behaviour is embedded as a
trace of actions: the one-off `_appendMessageToTask` mutation, each
`taskStore.save`, and each `yield`. -/

/-- A `SendMessageStreamingResponse` result payload: dynamically a `Message`,
a `TaskStatusUpdateEvent` or a `TaskArtifactUpdateEvent` (executors yield all
three shapes; src/types/index.ts declares only `Message`). -/
inductive StreamResult
  | message (m : Message)
  | statusUpdate (taskId : String) (state : TaskState) (final : Bool)
  | artifactUpdate (taskId : String) (name : String)
deriving DecidableEq, Repr

/-- The duck-typing check `"taskId" in response.result` from
`_setupSSEConsumer` / `onMessageSend`: status and artifact events always carry
a `taskId` field; a `Message` carries one only when its optional `taskId` is
present. -/
def StreamResult.hasTaskId : StreamResult → Bool
  | .message m => m.taskId.isSome
  | .statusUpdate _ _ _ => true
  | .artifactUpdate _ _ => true

/-- A streaming envelope: `SendMessageStreamingResponse`. -/
abbrev StreamResponse := RpcResponse StreamResult

/-- An executor stream: the envelopes yielded by
`agentExecutor.onMessageStream`, then an optional thrown exception (its
stringification).  Envelopes yielded after a throw do not exist, so a throw
simply truncates the list. -/
structure ExecStream where
  events : List StreamResponse
  thrown : Option String := none

/-- One observable action of `_setupSSEConsumer`. -/
inductive SSEAction
  | appendMessage
  | save (result : StreamResult)
  | yieldEv (response : StreamResponse)
deriving DecidableEq, Repr

/-- Per-envelope body of the `for await` loop in `_setupSSEConsumer`: a
success whose result is task-shaped is saved, then the envelope is yielded;
error envelopes have no `result` and are yielded unchanged. -/
def consumeEvent (response : StreamResponse) : List SSEAction :=
  match response with
  | .success rid result =>
    (if result.hasTaskId then [SSEAction.save result] else []) ++
      [SSEAction.yieldEv (.success rid result)]
  | .error rid e => [SSEAction.yieldEv (.error rid e)]

/-- Generator `_setupSSEConsumer`: appends the inbound message to the task when one
exists, forwards every executor envelope (saving task-shaped results), and on
an executor exception yields one synthetic `-32603` InternalError envelope
carrying the request's id, then completes normally (the `catch` branch). -/
def setupSSEConsumer (task : Option TaskObj) (request : SendMessageStreamingRequest)
    (es : ExecStream) : List SSEAction :=
  (if task.isSome then [SSEAction.appendMessage] else []) ++
    es.events.flatMap consumeEvent ++
    (match es.thrown with
     | none => []
     | some msg =>
       [SSEAction.yieldEv (.error request.id
         { code := -32603, message := "Internal error: " ++ msg })])

/-- The envelopes actually delivered (yielded) by the consumer generator. -/
def sseYields (actions : List SSEAction) : List StreamResponse :=
  actions.filterMap fun a =>
    match a with
    | .yieldEv r => some r
    | _ => none

/-- Recognizes a `TaskStatusUpdateEvent` envelope with `final = true`. -/
def isFinalStatusEvent : StreamResponse → Bool
  | .success _ (.statusUpdate _ _ true) => true
  | _ => false

/-- Number of final status events in a delivered sequence. -/
def countFinalStatus (rs : List StreamResponse) : Nat :=
  rs.countP fun r => isFinalStatusEvent r

/-! ## SSE wire codec

Server side (src/server/app.ts, `message/sendStream` case): one
`data: <json>\n\n` frame per yielded envelope, then the sentinel
`event: end\ndata: {}\n\n` and `res.end()`.  Client side: both decode loops
(`A2AClient.sendMessageStreaming` in src/client and
`A2AClient.sendTaskSubscribe` in the unnamed client file) read chunks into a
rolling buffer, split on the blank-line delimiter, keep the trailing partial
frame, and JSON-parse the concatenated `data:` payloads of each complete
frame.  Strings are `List Char`; `JSON.stringify`/`JSON.parse` are a
serializer/parser parameter pair. -/

/-- The whitespace predicate behind `String.prototype.trim`. -/
def isWS (c : Char) : Bool :=
  c = ' ' || c = '\t' || c = '\n' || c = '\r'

/-- Function `String.prototype.trim`. -/
def jsTrim (s : List Char) : List Char :=
  ((s.dropWhile isWS).reverse.dropWhile isWS).reverse

/-- Function `String.prototype.startsWith`. -/
def strStartsWith (s pre : List Char) : Bool :=
  decide (s.take pre.length = pre)

/-- Function `split("\n")` on a frame. -/
def splitLines : List Char → List (List Char)
  | [] => [[]]
  | c :: rest =>
    if c = '\n' then [] :: splitLines rest
    else
      match splitLines rest with
      | [] => [[c]]
      | p :: ps => (c :: p) :: ps

/-- Function `split("\n\n")`: JS `String.prototype.split` with the two-newline frame
delimiter — non-overlapping occurrences are consumed left to right. -/
def splitNN : List Char → List (List Char)
  | [] => [[]]
  | [c] => [[c]]
  | a :: b :: rest =>
    if a = '\n' ∧ b = '\n' then [] :: splitNN rest
    else
      match splitNN (b :: rest) with
      | [] => [[a]]
      | p :: ps => (a :: p) :: ps

/-- Whether a string contains two consecutive newlines, i.e. an occurrence of
the SSE frame delimiter. -/
def hasNN : List Char → Bool
  | [] => false
  | [_] => false
  | a :: b :: rest => (a = '\n' && b = '\n') || hasNN (b :: rest)

/-- The chunk loop shared by both client decoders: append the chunk to the
rolling buffer, split on the frame delimiter, keep the trailing partial frame
as the next buffer (`buffer = messages.pop() || ""`), and emit the complete
frames in order.  When the reader reports `done`, whatever remains in the
buffer is discarded. -/
def feedChunks (buffer : List Char) : List (List Char) → List (List Char)
  | [] => []
  | chunk :: rest =>
    let ps := splitNN (buffer ++ chunk)
    ps.dropLast ++ feedChunks ((ps.getLast?).getD []) rest

/-- Concatenated `data:` payload of one frame, as computed by the
`sendTaskSubscribe` decode loop: per line, `data += line.slice(5).trim()`. -/
def frameData (frame : List Char) : List Char :=
  (splitLines frame).foldl
    (fun data line =>
      if strStartsWith line ("data:").toList then data ++ jsTrim (line.drop 5) else data)
    []

/-- Per-frame behaviour of `sendTaskSubscribe` (unnamed client file): blank
frames are skipped (`if (!part.trim()) continue`), frames with empty data are
skipped, a `JSON.parse` failure is swallowed, and there is no handling of
`event:` lines at all. -/
def subFrameValue (parse : List Char → Option V) (frame : List Char) : Option V :=
  if (jsTrim frame).isEmpty then none
  else if (frameData frame).isEmpty then none
  else parse (frameData frame)

/-- Loop `A2AClient.sendTaskSubscribe` SSE decode loop over a list of read chunks. -/
def sendTaskSubscribeDecode (parse : List Char → Option V) (chunks : List (List Char)) :
    List V :=
  (feedChunks [] chunks).filterMap (subFrameValue parse)

/-- The `data` and `eventType` fields of one frame, as computed by the
`sendMessageStreaming` decode loop (src/client): `data` lines concatenate,
`event:` lines overwrite `eventType` (initially `"message"`). -/
def frameFields (frame : List Char) : List Char × List Char :=
  (splitLines frame).foldl
    (fun acc line =>
      if strStartsWith line ("data:").toList then (acc.1 ++ jsTrim (line.drop 5), acc.2)
      else if strStartsWith line ("event:").toList then (acc.1, jsTrim (line.drop 6))
      else acc)
    ([], "message".toList)

/-- Per-frame outcome of the `sendMessageStreaming` decode loop: blank frames
skipped; `event: end` terminates the whole iteration (`return`); otherwise a
non-empty data payload is parsed, failures being logged and skipped. -/
inductive FrameStep (V : Type)
  | halt
  | value (v : V)
  | skip

/-- Classify one complete frame for the `sendMessageStreaming` loop. -/
def msgFrameStep (parse : List Char → Option V) (frame : List Char) : FrameStep V :=
  if (jsTrim frame).isEmpty then .skip
  else if (frameFields frame).2 = "end".toList then .halt
  else if (frameFields frame).1.isEmpty then .skip
  else
    match parse (frameFields frame).1 with
    | some v => .value v
    | none => .skip

/-- Run the `sendMessageStreaming` frame loop: stop at the first `end` frame,
collect parsed values of the others. -/
def runFrameSteps (parse : List Char → Option V) : List (List Char) → List V
  | [] => []
  | f :: fs =>
    match msgFrameStep parse f with
    | .halt => []
    | .value v => v :: runFrameSteps parse fs
    | .skip => runFrameSteps parse fs

/-- Loop `A2AClient.sendMessageStreaming` SSE decode loop over a list of read
chunks. -/
def sendMessageStreamingDecode (parse : List Char → Option V) (chunks : List (List Char)) :
    List V :=
  runFrameSteps parse (feedChunks [] chunks)

/-- Server-side frame for one envelope:
`res.write("data: " + JSON.stringify(chunk) + "\n\n")`. -/
def sseFrame (payload : List Char) : List Char :=
  "data: ".toList ++ payload ++ ['\n', '\n']

/-- The end-of-stream sentinel the server writes before `res.end()`:
`event: end\ndata: {}\n\n`. -/
def endSentinel : List Char :=
  "event: end\ndata: \x7b\x7d\n\n".toList

/-- The full byte stream written for one streaming cycle: one frame per
delivered envelope, then the sentinel. -/
def serverStream (ser : V → List Char) (envelopes : List V) : List Char :=
  (envelopes.flatMap fun e => sseFrame (ser e)) ++ endSentinel

/-- Whether a queue operation is a `next()` call carrying the resolver id
`rid`. -/
def StreamingResponseQueue.Op.usesResolver : StreamingResponseQueue.Op T → Nat → Bool
  | .next r, rid => r = rid
  | _, _ => false

/-! ## Concrete instances used by counterexamples and failing-input
evaluations -/

/-- Queue state after `push("a")` followed by `close()` on a fresh queue. -/
def pushedThenClosed : StreamingResponseQueue String :=
  StreamingResponseQueue.close (StreamingResponseQueue.push {} "a").1

/-- A streaming request with id `"req-1"`. -/
def req1 : SendMessageStreamingRequest :=
  ⟨some ("req-1"), ⟨⟨"m1", "user", "hi", none, none⟩⟩⟩

/-- An executor event sequence consisting of a single artifact-update
envelope — it ends without ever yielding a terminal status event. -/
def artifactOnlyEvents : List StreamResponse :=
  [.success (some ("req-1")) (.artifactUpdate ("t1") "a.txt")]

/-- A task-shaped executor result conforming to the declared `Task` interface:
it carries `taskId = "t1"` and `state = completed`, and (exactly as the
interface declares) no `id` property. -/
def completedTask1 : TaskObj :=
  { taskId := some ("t1"), state := some .completed }

/-- A `message/send` request whose message names no prior task. -/
def sendReq1 : SendMessageRequest :=
  ⟨some ("s1"), ⟨⟨"m1", "user", "hi", none, none⟩⟩⟩

/-- An executor whose single-result entry point answers with
`completedTask1`. -/
def completedTaskExec : SendMessageRequest → Option TaskObj → RpcResponse TaskObj :=
  fun req _ => .success req.id completedTask1

/-- Store and response after running `onMessageSend` on an empty store with
`completedTaskExec`. -/
def sendThenStore : TaskMap × RpcResponse TaskObj :=
  onMessageSend [] sendReq1 completedTaskExec ("T0")

/-- A stored task in `completed` state, keyed under `"t1"`. -/
def storedCompleted : TaskObj :=
  { id := some ("t1"), taskId := some ("t1"), state := some .completed }

/-- A one-entry store holding `storedCompleted` under key `"t1"`. -/
def storeWithT1 : TaskMap := [(some ("t1"), storedCompleted)]

/-- A cancel request for task `"t1"`. -/
def cancelReq1 : CancelTaskRequest := ⟨some ("c1"), ⟨"t1"⟩⟩

/-- An executor whose cancel entry point refuses (the task is already
completed) with a `TaskNotCancelableError`. -/
def notCancelableExec : CancelTaskRequest → TaskObj → RpcResponse TaskObj :=
  fun req _ =>
    .error req.id { type := some ("TaskNotCancelableError"), code := -32002,
                    message := "Task cannot be canceled" }

/-- A parser accepting every payload verbatim, used to observe exactly which
data payloads a decode loop yields. -/
def verbatimParse : List Char → Option (List Char) := fun s => some s

end A2A

namespace A2A

/-! ## Helper lemmas -/

/-- Draining an open queue: `queue.length` successive `next()` calls on an
open queue immediately deliver exactly the buffered items in FIFO order. -/
theorem nextImmediates_drains (q : List T) :
    ∀ (s : StreamingResponseQueue T) (rid0 : Nat), s.closed = false → s.queue = q →
      StreamingResponseQueue.nextImmediates s q.length rid0 = q := by
  induction q with
  | nil => intro s rid0 _ _; rfl
  | cons x xs ih =>
    intro s rid0 hc hq
    simp only [StreamingResponseQueue.nextImmediates, StreamingResponseQueue.next, hc, hq,
      Bool.false_eq_true, if_false]
    exact congrArg (x :: ·) (ih _ (rid0 + 1) rfl rfl)

/-- One queue operation that does not carry the resolver id `r1` neither
stores `r1` as the waiting resolver nor invokes any resolver with id `r1`. -/
theorem runOp_preserves_unresolved (r1 : Nat) (s : StreamingResponseQueue T)
    (op : StreamingResponseQueue.Op T) (hop : op.usesResolver r1 = false)
    (hw : s.waitResolve ≠ some r1) (hres : ∀ p ∈ s.resolved, p.1 ≠ r1) :
    (StreamingResponseQueue.runOp s op).waitResolve ≠ some r1 ∧
      ∀ p ∈ (StreamingResponseQueue.runOp s op).resolved, p.1 ≠ r1 := by
  obtain ⟨q, w, c, res⟩ := s
  cases op with
  | push item =>
    cases c with
    | true => exact ⟨hw, hres⟩
    | false =>
      cases w with
      | none => exact ⟨hw, hres⟩
      | some rid =>
        have hrid : rid ≠ r1 := fun h => hw (congrArg some h)
        refine ⟨fun h => Option.noConfusion h, fun p hp => ?_⟩
        rcases List.mem_append.1 hp with hp | hp
        · exact hres p hp
        · rw [List.mem_singleton.1 hp]; exact hrid
  | close =>
    cases w with
    | none => exact ⟨hw, hres⟩
    | some rid =>
      have hrid : rid ≠ r1 := fun h => hw (congrArg some h)
      refine ⟨fun h => Option.noConfusion h, fun p hp => ?_⟩
      rcases List.mem_append.1 hp with hp | hp
      · exact hres p hp
      · rw [List.mem_singleton.1 hp]; exact hrid
  | next rid =>
    have hrid : rid ≠ r1 := by
      simpa [StreamingResponseQueue.Op.usesResolver, decide_eq_false_iff_not] using hop
    cases c with
    | true => exact ⟨hw, hres⟩
    | false =>
      cases q with
      | cons item rest => exact ⟨hw, hres⟩
      | nil => exact ⟨fun h => hrid (Option.some.inj h), hres⟩

/-- A sequence of queue operations none of which carries resolver id `r1`
never invokes a resolver with id `r1`. -/
theorem runOps_preserves_unresolved (r1 : Nat) (ops : List (StreamingResponseQueue.Op T)) :
    ∀ (s : StreamingResponseQueue T),
      (∀ op ∈ ops, op.usesResolver r1 = false) →
      s.waitResolve ≠ some r1 → (∀ p ∈ s.resolved, p.1 ≠ r1) →
      ∀ p ∈ (StreamingResponseQueue.runOps s ops).resolved, p.1 ≠ r1 := by
  induction ops with
  | nil => intro s _ _ hres; exact hres
  | cons op rest ih =>
    intro s hops hw hres
    have h1 := runOp_preserves_unresolved r1 s op (hops op (by simp)) hw hres
    exact ih _ (fun o ho => hops o (by simp [ho])) h1.1 h1.2

/-- The yields of per-event consumer actions are exactly the executor's
envelopes. -/
theorem sseYields_flatMap_consume (events : List StreamResponse) :
    sseYields (events.flatMap consumeEvent) = events := by
  induction events with
  | nil => rfl
  | cons r rest ih =>
    cases r with
    | success rid result =>
      by_cases h : result.hasTaskId <;>
        simp [sseYields, consumeEvent, h, List.filterMap_append] at ih ⊢ <;>
        exact ih
    | error rid e =>
      simp [sseYields, consumeEvent, List.filterMap_append] at ih ⊢
      exact ih

/-- Function `sseYields` distributes over action-list concatenation. -/
theorem sseYields_append (a b : List SSEAction) :
    sseYields (a ++ b) = sseYields a ++ sseYields b :=
  List.filterMap_append ..

/-- The delivered envelopes of one streaming cycle: exactly the executor's
envelopes, followed by one synthetic InternalError envelope when the executor
threw. -/
theorem sseYields_setupSSEConsumer (task : Option TaskObj)
    (request : SendMessageStreamingRequest) (events : List StreamResponse)
    (thrown : Option String) :
    sseYields (setupSSEConsumer task request ⟨events, thrown⟩) =
      events ++
        (match thrown with
         | none => []
         | some msg =>
           [RpcResponse.error request.id
              { code := -32603, message := "Internal error: " ++ msg }]) := by
  unfold setupSSEConsumer
  rw [sseYields_append, sseYields_append, sseYields_flatMap_consume]
  have h1 : sseYields (if task.isSome then [SSEAction.appendMessage] else []) = [] := by
    cases task <;> rfl
  rw [h1]
  cases thrown <;> rfl

/-! ## Claim theorems -/

/-- C1 counterexample: an executor stream consisting of a single
artifact-update envelope (no terminal status event, no exception).  The
dispatcher delivers exactly that envelope — it synthesizes nothing — so the
delivered sequence does not contain exactly one `TaskStatusUpdateEvent` with
`final = true`. -/
theorem c1_streaming_final_event_counterexample :
    sseYields (setupSSEConsumer none req1 ⟨artifactOnlyEvents, none⟩) = artifactOnlyEvents ∧
      countFinalStatus (sseYields (setupSSEConsumer none req1 ⟨artifactOnlyEvents, none⟩)) ≠ 1 := by
  exact ⟨rfl, by decide⟩

/-- C1 (amended): the dispatcher's `_setupSSEConsumer` forwards exactly the
executor's envelopes, appending a single `-32603` InternalError envelope when
the executor throws; it never synthesizes a final `TaskStatusUpdateEvent`, so
the delivered sequence contains a `final = true` status event exactly as often
as the executor's own sequence does. -/
theorem c1_streaming_yields_exactly_executor_events (task : Option TaskObj)
    (request : SendMessageStreamingRequest) (events : List StreamResponse)
    (thrown : Option String) :
    sseYields (setupSSEConsumer task request ⟨events, thrown⟩) =
      events ++
        (match thrown with
         | none => []
         | some msg =>
           [.error request.id { code := -32603, message := "Internal error: " ++ msg }]) ∧
      countFinalStatus (sseYields (setupSSEConsumer task request ⟨events, thrown⟩)) =
        countFinalStatus events := by
  have hy := sseYields_setupSSEConsumer task request events thrown
  refine ⟨hy, ?_⟩
  rw [hy]
  unfold countFinalStatus
  rw [List.countP_append]
  cases thrown <;> simp [isFinalStatusEvent]

/-- C2 counterexample: push `"a"`, then `close()`.  The buffered item is still
in the queue, yet the very first `next()` call immediately returns the `null`
sentinel instead of the buffered item — buffered items are not drained before
the closure sentinel is observed. -/
theorem c2_queue_close_discards_buffer_counterexample :
    pushedThenClosed.queue = ["a"] ∧
      (StreamingResponseQueue.next pushedThenClosed 0).2 =
        .immediate none ∧
      (StreamingResponseQueue.next pushedThenClosed 0).2 ≠
        .immediate (some ("a")) := by
  refine ⟨rfl, rfl, ?_⟩
  decide

/-- C2 (amended): `next()` returns the sentinel exactly when the queue is
already closed at the time of the call, regardless of buffered items (items
still buffered at `close()` are discarded); buffered items are delivered in
FIFO order only by `next()` calls made while the queue is still open. -/
theorem c2_queue_next_sentinel_iff_closed (s : StreamingResponseQueue T) (rid rid0 : Nat) :
    (s.closed = true → StreamingResponseQueue.next s rid = (s, .immediate none)) ∧
      (s.closed = false →
        StreamingResponseQueue.nextImmediates s s.queue.length rid0 = s.queue) := by
  constructor
  · intro h
    unfold StreamingResponseQueue.next
    rw [if_pos h]
  · intro h
    exact nextImmediates_drains s.queue s rid0 h rfl

/-- C2 witness: on an open queue buffering `["x", "y"]`, two `next()` calls
deliver `"x"` then `"y"`; on the closed state `pushedThenClosed`, `next()`
immediately returns the sentinel. -/
theorem c2_queue_next_sentinel_iff_closed_witness :
    StreamingResponseQueue.nextImmediates
        (⟨["x", "y"], none, false, []⟩ : StreamingResponseQueue String) 2 0 = ["x", "y"] ∧
      StreamingResponseQueue.next pushedThenClosed 5 =
        (pushedThenClosed, .immediate none) := by
  exact ⟨(c2_queue_next_sentinel_iff_closed ⟨["x", "y"], none, false, []⟩ 0 0).2 rfl,
    (c2_queue_next_sentinel_iff_closed pushedThenClosed 5 0).1 rfl⟩

/-- C9: `InMemoryTaskStore.save` keys the entry by the runtime `id` property,
so on a fresh store `get(k)` finds the saved task exactly when `k` equals the
task's `id` property; a task conforming to the declared `Task` interface
(carrying only `taskId`) is unreachable under its `taskId`. -/
theorem c9_save_keys_by_id_property (t : TaskObj) (k : String) :
    (TaskMap.get (InMemoryTaskStore.save [] t) (some k) = some t ↔ t.id = some k) ∧
      (∀ tid, t.id = none → t.taskId = some tid →
        InMemoryTaskStore.get (InMemoryTaskStore.save [] t) tid = none) := by
  constructor
  · unfold InMemoryTaskStore.save TaskMap.set TaskMap.get
    constructor
    · intro h
      by_cases hk : t.id = some k
      · exact hk
      · rw [if_neg hk] at h
        exact Option.noConfusion h
    · intro h
      rw [if_pos h]
  · intro tid hid _
    unfold InMemoryTaskStore.get InMemoryTaskStore.save TaskMap.set TaskMap.get
    rw [hid, if_neg (fun h => Option.noConfusion h)]
    rfl

/-- C9 witness: saving the task `completedTask1` (which carries only
`taskId = "t1"`) leaves `get("t1")` returning nothing. -/
theorem c9_save_keys_by_id_property_witness :
    InMemoryTaskStore.get (InMemoryTaskStore.save [] completedTask1) "t1" = none :=
  (c9_save_keys_by_id_property completedTask1 ("t1")).2 ("t1") rfl rfl

/-- C10: on an empty open queue, a first `next()` (resolver id `r1`) suspends;
a second `next()` (resolver id `r2`) overwrites the stored resolver, and no
subsequent sequence of operations that does not itself carry `r1` ever
invokes resolver `r1` — the first caller's promise is never resolved. -/
theorem c10_pending_next_overwritten (T : Type) (r1 r2 : Nat)
    (ops : List (StreamingResponseQueue.Op T)) (hne : r2 ≠ r1)
    (hops : ∀ op ∈ ops, op.usesResolver r1 = false) :
    (StreamingResponseQueue.next ({} : StreamingResponseQueue T) r1).2 = .suspended ∧
      (StreamingResponseQueue.next ({} : StreamingResponseQueue T) r1).1.waitResolve = some r1 ∧
      (StreamingResponseQueue.next
        (StreamingResponseQueue.next ({} : StreamingResponseQueue T) r1).1 r2).1.waitResolve =
        some r2 ∧
      ∀ p ∈ (StreamingResponseQueue.runOps
          (StreamingResponseQueue.next
            (StreamingResponseQueue.next ({} : StreamingResponseQueue T) r1).1 r2).1
          ops).resolved, p.1 ≠ r1 := by
  refine ⟨rfl, rfl, rfl, ?_⟩
  refine runOps_preserves_unresolved r1 ops _ hops ?_ ?_
  · exact fun h => hne (Option.some.inj h)
  · intro p hp
    exact absurd hp (List.not_mem_nil p)

/-- C10 witness: with `r1 = 0`, `r2 = 1` and the subsequent operations
`push 7; close; next 2`, resolver `0` never appears in the resolution log. -/
theorem c10_pending_next_overwritten_witness :
    (StreamingResponseQueue.runOps
        (StreamingResponseQueue.next
          (StreamingResponseQueue.next ({} : StreamingResponseQueue Nat) 0).1 1).1
        [.push 7, .close, .next 2]).resolved = [(1, some 7)] ∧
      ((1 : Nat), (some 7 : Option Nat)).1 ≠ 0 := by
  have h := c10_pending_next_overwritten Nat 0 1 [.push 7, .close, .next 2]
    (by decide) (by decide)
  exact ⟨rfl, h.2.2.2 (1, some 7) (by decide)⟩

/-- C4: `tasks/get` for an id absent from the store answers with the
`TaskNotFoundError` constant — whose code is `-32000`, not the `-32001` that
the repository's own error documentation (docs/sections/8-Error-Handling.md
and the A2A error-class module) assigns to `TaskNotFoundError`. -/
theorem c4_get_miss_error_code :
    onGetTask [] ⟨some ("req-1"), ⟨"missing"⟩⟩ =
        .error (some ("req-1"))
          { type := some ("TaskNotFoundError"), code := -32000, message := "Task not found" } ∧
      TaskNotFoundError.code ≠ -32001 := by
  exact ⟨rfl, by decide⟩

/-- C3: the failing input evaluated.  A `message/send` whose executor returns
the task-shaped success result `completedTask1` (state `completed`, identifier
`taskId = "t1"`) does persist the result — but `save` keys it by the absent
runtime `id` property, so the immediately following `tasks/get` for `"t1"`
answers `TaskNotFoundError` instead of the task with the same state. -/
theorem c3_send_then_get_loses_task :
    sendThenStore.2 = .success (some ("s1")) completedTask1 ∧
      completedTask1.state = some TaskState.completed ∧
      onGetTask sendThenStore.1 ⟨some ("g1"), ⟨"t1"⟩⟩ = .error (some ("g1")) TaskNotFoundError := by
  exact ⟨rfl, rfl, rfl⟩

/-- C8: `tasks/cancel` behaviour of the dispatcher.  A store miss answers
`TaskNotFoundError` leaving the store unchanged; on a hit the executor's
response is returned unchanged, the store is updated (via `save`) with the
response's task exactly when the response is a success, and an executor error
response leaves the store untouched. -/
theorem c8_cancel_delegates_and_saves_on_success (store : TaskMap)
    (request : CancelTaskRequest)
    (onCancel : CancelTaskRequest → TaskObj → RpcResponse TaskObj) :
    (InMemoryTaskStore.get store request.params.id = none →
        onCancelTask store request onCancel = (store, .error request.id TaskNotFoundError)) ∧
      (∀ task, InMemoryTaskStore.get store request.params.id = some task →
        (onCancelTask store request onCancel).2 = onCancel request task ∧
          (∀ rid result, onCancel request task = .success rid result →
            (onCancelTask store request onCancel).1 = InMemoryTaskStore.save store result) ∧
          (∀ rid e, onCancel request task = .error rid e →
            (onCancelTask store request onCancel).1 = store)) := by
  constructor
  · intro h
    simp only [onCancelTask, h]
  · intro task h
    refine ⟨?_, ?_, ?_⟩
    · cases hr : onCancel request task with
      | success rid result => simp only [onCancelTask, h, hr]
      | error rid e => simp only [onCancelTask, h, hr]
    · intro rid result hsr
      simp only [onCancelTask, h, hsr]
    · intro rid e hse
      simp only [onCancelTask, h, hse]

/-- C8 witness: cancelling the already-completed stored task `"t1"` with an
executor that answers `TaskNotCancelableError` returns that error unchanged
and leaves the stored task untouched; cancelling a missing id answers
`TaskNotFoundError`. -/
theorem c8_cancel_delegates_and_saves_on_success_witness :
    (onCancelTask storeWithT1 cancelReq1 notCancelableExec).2 =
        notCancelableExec cancelReq1 storedCompleted ∧
      (onCancelTask storeWithT1 cancelReq1 notCancelableExec).1 = storeWithT1 ∧
      onCancelTask [] cancelReq1 notCancelableExec =
        ([], .error (some ("c1")) TaskNotFoundError) := by
  have h := (c8_cancel_delegates_and_saves_on_success storeWithT1 cancelReq1
    notCancelableExec).2 storedCompleted rfl
  have hmiss := (c8_cancel_delegates_and_saves_on_success [] cancelReq1
    notCancelableExec).1 rfl
  exact ⟨h.1, h.2.2 (some ("c1"))
    { type := some ("TaskNotCancelableError"), code := -32002,
      message := "Task cannot be canceled" } rfl, hmiss⟩

/-- C7: when the executor generator throws, the delivered sequence is the
executor's prior envelopes followed by exactly one `-32603` InternalError
envelope carrying the request's id; the dispatcher generator completes
normally (it is a total function of the stream), so the server still writes
one `data:` frame per delivered envelope followed by the `event: end` sentinel
and closes the response well-formed. -/
theorem c7_executor_throw_yields_internal_error (task : Option TaskObj)
    (request : SendMessageStreamingRequest) (events : List StreamResponse) (msg : String)
    (ser : StreamResponse → List Char) :
    sseYields (setupSSEConsumer task request ⟨events, some msg⟩) =
        events ++
          [.error request.id { code := -32603, message := "Internal error: " ++ msg }] ∧
      serverStream ser (sseYields (setupSSEConsumer task request ⟨events, some msg⟩)) =
        ((events ++
            [RpcResponse.error request.id
              { code := -32603, message := "Internal error: " ++ msg }]).flatMap
          fun r => sseFrame (ser r)) ++ endSentinel := by
  have hy := sseYields_setupSSEConsumer task request events (some msg)
  exact ⟨hy, by rw [serverStream, hy]⟩

/-! ## SSE codec lemmas -/

/-- Unfolding equation of `splitNN` at a two-cons list. -/
theorem splitNN_cons_cons (a b : Char) (rest : List Char) :
    splitNN (a :: b :: rest) =
      if a = '\n' ∧ b = '\n' then [] :: splitNN rest
      else
        match splitNN (b :: rest) with
        | [] => [[a]]
        | p :: ps => (a :: p) :: ps := rfl

/-- Function `splitNN` never returns the empty list (JS `split` always yields at least
one piece). -/
theorem splitNN_ne_nil (s : List Char) : splitNN s ≠ [] := by
  induction s using splitNN.induct with
  | case1 => exact fun h => List.noConfusion h
  | case2 c => exact fun h => List.noConfusion h
  | case3 a b rest h ih =>
    rw [splitNN_cons_cons, if_pos h]
    exact fun h2 => List.noConfusion h2
  | case4 a b rest h hnil ih => exact absurd hnil ih
  | case5 a b rest h p ps hps ih =>
    rw [splitNN_cons_cons, if_neg h, hps]
    exact fun h2 => List.noConfusion h2

/-- When the first character is not a newline, the first piece of `splitNN`
starts with it. -/
theorem splitNN_head (b : Char) (rest : List Char) (hb : b ≠ '\n') :
    ∃ q qs, splitNN (b :: rest) = (b :: q) :: qs := by
  cases rest with
  | nil => exact ⟨[], [], rfl⟩
  | cons y ys =>
    rw [splitNN_cons_cons, if_neg (fun h => hb h.1)]
    cases hps : splitNN (y :: ys) with
    | nil => exact ⟨[], [], rfl⟩
    | cons p ps => exact ⟨p, ps, rfl⟩

/-- Prepending a character that does not complete a frame delimiter prepends
it to the first piece. -/
theorem splitNN_cons_eq (a : Char) (u : List Char) (p : List Char) (ps : List (List Char))
    (h : ¬(a = '\n' ∧ u.head? = some '\n')) (hu : splitNN u = p :: ps) :
    splitNN (a :: u) = (a :: p) :: ps := by
  cases u with
  | nil =>
    have h1 : ([[]] : List (List Char)) = p :: ps := hu
    cases h1
    rfl
  | cons x xs =>
    rw [splitNN_cons_cons, if_neg (fun hc => h ⟨hc.1, by simp [hc.2]⟩), hu]

/-- Splitting a concatenation: the completed pieces of `s` stay as they are,
and the trailing piece of `s` is re-split together with `t` — exactly the
invariant the decoders' rolling buffer relies on. -/
theorem splitNN_append (s t : List Char) :
    splitNN (s ++ t) =
      (splitNN s).dropLast ++ splitNN (((splitNN s).getLast?).getD [] ++ t) := by
  induction s using splitNN.induct with
  | case1 => rfl
  | case2 c => rfl
  | case3 a b rest h ih =>
    obtain ⟨ha, hb⟩ := h
    subst ha hb
    obtain ⟨p, ps, hps⟩ := List.exists_cons_of_ne_nil (splitNN_ne_nil rest)
    rw [List.cons_append, List.cons_append,
      splitNN_cons_cons '\n' '\n' (rest ++ t), if_pos ⟨rfl, rfl⟩,
      splitNN_cons_cons '\n' '\n' rest, if_pos ⟨rfl, rfl⟩, ih, hps,
      List.dropLast_cons₂, List.getLast?_cons_cons, List.cons_append]
  | case4 a b rest h hnil ih => exact absurd hnil (splitNN_ne_nil _)
  | case5 a b rest h p ps hps ih =>
    rw [List.cons_append, List.cons_append,
      splitNN_cons_cons a b (rest ++ t), if_neg h,
      splitNN_cons_cons a b rest, if_neg h]
    rw [List.cons_append] at ih
    rw [hps] at ih
    simp only [hps]
    cases ps with
    | nil =>
      simp only [List.dropLast_single, List.getLast?_singleton, Option.getD_some,
        List.nil_append] at ih
      obtain ⟨q, qs, hq⟩ := List.exists_cons_of_ne_nil (splitNN_ne_nil (p ++ t))
      have hcond : ¬(a = '\n' ∧ (p ++ t).head? = some '\n') := by
        rintro ⟨ha, hhead⟩
        have hb : b ≠ '\n' := fun hb => h ⟨ha, hb⟩
        obtain ⟨q2, qs2, hq2⟩ := splitNN_head b rest hb
        rw [hps] at hq2
        injection hq2 with h1 _
        rw [h1, List.cons_append] at hhead
        exact hb (Option.some.inj hhead)
      simp only [ih, hq, List.dropLast_single, List.getLast?_singleton, Option.getD_some,
        List.nil_append, List.cons_append]
      rw [splitNN_cons_eq a (p ++ t) q qs hcond hq]
    | cons q qs =>
      simp only [List.dropLast_cons₂, List.getLast?_cons_cons] at ih ⊢
      simp only [ih, List.cons_append]

/-- The trailing piece of a `splitNN` result contains no frame delimiter:
re-splitting it yields only itself. -/
theorem splitNN_lastPiece (s : List Char) :
    splitNN (((splitNN s).getLast?).getD []) = [((splitNN s).getLast?).getD []] := by
  induction s using splitNN.induct with
  | case1 => rfl
  | case2 c => rfl
  | case3 a b rest h ih =>
    rw [splitNN_cons_cons, if_pos h]
    obtain ⟨p, ps, hps⟩ := List.exists_cons_of_ne_nil (splitNN_ne_nil rest)
    rw [hps] at ih ⊢
    rw [List.getLast?_cons_cons]
    exact ih
  | case4 a b rest h hnil ih => exact absurd hnil (splitNN_ne_nil _)
  | case5 a b rest h p ps hps ih =>
    rw [splitNN_cons_cons, if_neg h, hps]
    rw [hps] at ih
    cases ps with
    | nil =>
      simp only [List.getLast?_singleton, Option.getD_some] at ih ⊢
      have hcond : ¬(a = '\n' ∧ p.head? = some '\n') := by
        rintro ⟨ha, hhead⟩
        have hb : b ≠ '\n' := fun hb => h ⟨ha, hb⟩
        obtain ⟨q2, qs2, hq2⟩ := splitNN_head b rest hb
        rw [hps] at hq2
        injection hq2 with h1 _
        rw [h1] at hhead
        exact hb (Option.some.inj hhead)
      exact splitNN_cons_eq a p p [] hcond ih
    | cons q qs =>
      rw [List.getLast?_cons_cons] at ih ⊢
      exact ih

/-- The rolling-buffer chunk loop emits exactly the completed frames of the
whole received text (given a delimiter-free starting buffer). -/
theorem feedChunks_eq (cs : List (List Char)) :
    ∀ buf : List Char, splitNN buf = [buf] →
      feedChunks buf cs = (splitNN (buf ++ cs.flatten)).dropLast := by
  induction cs with
  | nil =>
    intro buf hbuf
    show ([] : List (List Char)) = _
    rw [List.flatten_nil, List.append_nil, hbuf, List.dropLast_single]
  | cons c cs ih =>
    intro buf hbuf
    show (splitNN (buf ++ c)).dropLast ++
        feedChunks (((splitNN (buf ++ c)).getLast?).getD []) cs = _
    rw [List.flatten_cons, ← List.append_assoc, splitNN_append (buf ++ c) cs.flatten,
      List.dropLast_append_of_ne_nil _ (splitNN_ne_nil _),
      ih _ (splitNN_lastPiece (buf ++ c))]

/-- The frames a decoder processes depend only on the concatenation of the
received chunks. -/
theorem feedChunks_flatten (cs : List (List Char)) :
    feedChunks [] cs = (splitNN cs.flatten).dropLast := by
  have h := feedChunks_eq cs [] rfl
  rwa [List.nil_append] at h

/-- A string with no two consecutive newlines splits into itself. -/
theorem splitNN_of_hasNN_false (s : List Char) (h : hasNN s = false) : splitNN s = [s] := by
  induction s using hasNN.induct with
  | case1 => rfl
  | case2 c => rfl
  | case3 a b rest ih =>
    rw [hasNN] at h
    simp only [Bool.or_eq_false_iff, Bool.and_eq_false_iff, decide_eq_false_iff_not] at h
    have hne : ¬(a = '\n' ∧ b = '\n') := fun hc => by
      rcases h.1 with h1 | h1
      · exact h1 hc.1
      · exact h1 hc.2
    rw [splitNN_cons_cons, if_neg hne, ih h.2]

/-- Splitting a frame body followed by the delimiter and more text: the body
(delimiter-free and not ending in a newline) becomes one complete piece. -/
theorem splitNN_frame (body : List Char) (rest : List Char)
    (h : hasNN (body ++ ['\n']) = false) :
    splitNN (body ++ '\n' :: '\n' :: rest) = body :: splitNN rest := by
  induction body with
  | nil => rw [List.nil_append, splitNN_cons_cons, if_pos ⟨rfl, rfl⟩]
  | cons a tail ih =>
    cases tail with
    | nil =>
      have ha : a ≠ '\n' := by
        intro hc
        rw [hc] at h
        exact Bool.noConfusion h
      rw [List.cons_append, List.nil_append, splitNN_cons_cons,
        if_neg (fun hc => ha hc.1), splitNN_cons_cons, if_pos ⟨rfl, rfl⟩]
    | cons b bs =>
      rw [List.cons_append, List.cons_append] at h
      rw [hasNN] at h
      simp only [Bool.or_eq_false_iff, Bool.and_eq_false_iff, decide_eq_false_iff_not] at h
      have hne : ¬(a = '\n' ∧ b = '\n') := fun hc => by
        rcases h.1 with h1 | h1
        · exact h1 hc.1
        · exact h1 hc.2
      have ih2 := ih (by rw [List.cons_append]; exact h.2)
      rw [List.cons_append, List.cons_append, splitNN_cons_cons, if_neg hne]
      rw [List.cons_append] at ih2
      rw [ih2]

/-- A newline-free string followed by a single newline has no double
newline. -/
theorem hasNN_false_of_no_nl (s : List Char) (h : ∀ c ∈ s, c ≠ '\n') :
    hasNN (s ++ ['\n']) = false := by
  induction s with
  | nil => rfl
  | cons a tail ih =>
    have ha : a ≠ '\n' := h a (by simp)
    have htail : ∀ c ∈ tail, c ≠ '\n' := fun c hc => h c (by simp [hc])
    cases tail with
    | nil => simp [hasNN, ha]
    | cons b bs =>
      have hb : b ≠ '\n' := htail b (by simp)
      rw [List.cons_append, List.cons_append, hasNN]
      rw [List.cons_append] at ih
      simp only [Bool.or_eq_false_iff, Bool.and_eq_false_iff, decide_eq_false_iff_not]
      exact ⟨Or.inl ha, ih htail⟩

/-- A newline-free string is a single line. -/
theorem splitLines_of_no_nl (s : List Char) (h : ∀ c ∈ s, c ≠ '\n') :
    splitLines s = [s] := by
  induction s with
  | nil => rfl
  | cons c rest ih =>
    have hc : c ≠ '\n' := h c (by simp)
    have hrest := ih (fun x hx => h x (by simp [hx]))
    show (if c = '\n' then _ else _) = _
    rw [if_neg hc, hrest]

/-- Function `trim` drops a leading whitespace character. -/
theorem jsTrim_cons_ws (c : Char) (s : List Char) (h : isWS c = true) :
    jsTrim (c :: s) = jsTrim s := by
  unfold jsTrim
  rw [List.dropWhile_cons, if_pos h]

/-- Function `trim` of a string starting with a non-whitespace character is
nonempty. -/
theorem jsTrim_isEmpty_false (c : Char) (s : List Char) (h : isWS c = false) :
    (jsTrim (c :: s)).isEmpty = false := by
  unfold jsTrim
  rw [List.dropWhile_cons, if_neg (by rw [h]; exact Bool.noConfusion)]
  rw [List.isEmpty_eq_false]
  intro hrev
  have h1 : (c :: s).reverse.dropWhile isWS = [] := by
    have := congrArg List.reverse hrev
    rwa [List.reverse_reverse, List.reverse_nil] at this
  have h2 := (List.dropWhile_eq_nil_iff).1 h1 c (by simp)
  rw [h] at h2
  exact Bool.noConfusion h2

/-- Field extraction on a server data frame body: the `data` payload is the
trimmed serialized envelope and the event type stays `"message"`. -/
theorem frameFields_data (s : List Char) (hnl : ∀ c ∈ s, c ≠ '\n') :
    frameFields ("data: ".toList ++ s) = (jsTrim s, "message".toList) := by
  have hline : splitLines ("data: ".toList ++ s) = ["data: ".toList ++ s] := by
    refine splitLines_of_no_nl _ ?_
    intro c hc
    rcases List.mem_append.1 hc with hc | hc
    · exact (by decide : ∀ x ∈ "data: ".toList, x ≠ '\n') c hc
    · exact hnl c hc
  unfold frameFields
  rw [hline]
  show ([] ++ jsTrim (' ' :: s), "message".toList) = (jsTrim s, "message".toList)
  rw [List.nil_append, jsTrim_cons_ws ' ' s rfl]

/-- A server data frame body classifies as the parse of its payload. -/
theorem msgFrameStep_data (parse : List Char → Option V) (s : List Char)
    (hnl : ∀ c ∈ s, c ≠ '\n') (htrim : jsTrim s = s) (hne : s ≠ []) :
    msgFrameStep parse ("data: ".toList ++ s) =
      match parse s with
      | some v => FrameStep.value v
      | none => FrameStep.skip := by
  have hblank : (jsTrim ("data: ".toList ++ s)).isEmpty = false :=
    jsTrim_isEmpty_false 'd' _ rfl
  have hfd := frameFields_data s hnl
  have hsE : s.isEmpty = false := by rw [List.isEmpty_eq_false]; exact hne
  unfold msgFrameStep
  rw [hblank, hfd, htrim]
  simp only [Bool.false_eq_true, if_false]
  rw [if_neg (by decide : ¬("message".toList = "end".toList)), if_neg (by simp [hsE])]

/-- The sentinel frame body classifies as `halt` for every parser: the
`event: end` line is seen before any data is parsed. -/
theorem msgFrameStep_end (parse : List Char → Option V) :
    msgFrameStep parse ("event: end\ndata: \x7b\x7d").toList = .halt := rfl

/-- Splitting the full server stream: one piece per data frame body, then the
sentinel body and the empty trailing piece. -/
theorem splitNN_serverStream (ser : V → List Char) (es : List V)
    (h : ∀ e ∈ es, ∀ c ∈ ser e, c ≠ '\n') :
    splitNN (serverStream ser es) =
      es.map (fun e => "data: ".toList ++ ser e) ++
        ["event: end\ndata: \x7b\x7d".toList, []] := by
  induction es with
  | nil =>
    show splitNN endSentinel = _
    have hdec : endSentinel = "event: end\ndata: \x7b\x7d".toList ++ '\n' :: '\n' :: [] := by
      decide
    rw [hdec, splitNN_frame _ _ (by decide)]
    rfl
  | cons e es ih =>
    have hbody : ∀ c ∈ "data: ".toList ++ ser e, c ≠ '\n' := by
      intro c hc
      rcases List.mem_append.1 hc with hc | hc
      · exact (by decide : ∀ x ∈ "data: ".toList, x ≠ '\n') c hc
      · exact h e (by simp) c hc
    have ihs := ih (fun x hx => h x (by simp [hx]))
    have hserver : serverStream ser (e :: es) = sseFrame (ser e) ++ serverStream ser es := by
      unfold serverStream
      rw [List.flatMap_cons, List.append_assoc]
    have hframe : sseFrame (ser e) ++ serverStream ser es =
        ("data: ".toList ++ ser e) ++ '\n' :: '\n' :: serverStream ser es := by
      unfold sseFrame
      simp [List.append_assoc]
    rw [hserver, hframe, splitNN_frame _ _ (hasNN_false_of_no_nl _ hbody), ihs]
    rfl

/-- Running the frame loop over data frame bodies followed by the sentinel
body recovers the envelopes and stops. -/
theorem runFrameSteps_data_frames (parse : List Char → Option V) (ser : V → List Char)
    (es : List V)
    (h : ∀ e ∈ es,
      parse (ser e) = some e ∧ (∀ c ∈ ser e, c ≠ '\n') ∧ jsTrim (ser e) = ser e ∧ ser e ≠ []) :
    runFrameSteps parse
        (es.map (fun e => "data: ".toList ++ ser e) ++
          ["event: end\ndata: \x7b\x7d".toList]) = es := by
  induction es with
  | nil =>
    show runFrameSteps parse ["event: end\ndata: \x7b\x7d".toList] = []
    unfold runFrameSteps
    rw [msgFrameStep_end]
  | cons e es ih =>
    obtain ⟨hp, hnl, htrim, hne⟩ := h e (by simp)
    have ihs := ih (fun x hx => h x (by simp [hx]))
    show runFrameSteps parse (("data: ".toList ++ ser e) :: _) = e :: es
    unfold runFrameSteps
    rw [msgFrameStep_data parse (ser e) hnl htrim hne, hp]
    exact congrArg (e :: ·) ihs

/-! ## Codec claim theorems -/

/-- C5 counterexample: the `sendTaskSubscribe` decode loop has no handling of
`event:` lines, so the end-of-stream sentinel frame does not decode to
termination — its `data` payload `{}` is parsed and yielded as a value after
the genuine envelope. -/
theorem c5_sentinel_yielded_counterexample :
    sendTaskSubscribeDecode verbatimParse [serverStream (fun v => v) ["abc".toList]] =
        ["abc".toList, "\x7b\x7d".toList] ∧
      sendTaskSubscribeDecode verbatimParse [serverStream (fun v => v) ["abc".toList]] ≠
        ["abc".toList] := by
  constructor
  · decide
  · decide

/-- C5 (amended): for the `sendMessageStreaming` decode loop the round-trip
holds — decoding the server-encoded stream of envelopes yields exactly those
envelopes, the sentinel frame decoding to termination of the iteration (the
hypotheses state that `JSON.parse` inverts `JSON.stringify` and that
serialized envelopes are newline-free, trimmed and nonempty, as JSON
serialization guarantees). -/
theorem c5_sse_roundtrip (parse : List Char → Option V) (ser : V → List Char)
    (es : List V)
    (h : ∀ e ∈ es,
      parse (ser e) = some e ∧ (∀ c ∈ ser e, c ≠ '\n') ∧ jsTrim (ser e) = ser e ∧ ser e ≠ []) :
    sendMessageStreamingDecode parse [serverStream ser es] = es := by
  unfold sendMessageStreamingDecode
  rw [feedChunks_flatten]
  have hflat : ([serverStream ser es] : List (List Char)).flatten = serverStream ser es := by
    rw [List.flatten_cons, List.flatten_nil, List.append_nil]
  rw [hflat, splitNN_serverStream ser es (fun e he => (h e he).2.1)]
  have hsplit : es.map (fun e => "data: ".toList ++ ser e) ++
      ["event: end\ndata: \x7b\x7d".toList, []] =
      (es.map (fun e => "data: ".toList ++ ser e) ++
        ["event: end\ndata: \x7b\x7d".toList]) ++ [[]] := by
    rw [List.append_assoc]
    rfl
  rw [hsplit, List.dropLast_concat]
  exact runFrameSteps_data_frames parse ser es h

/-- C5 witness: round trip at the singleton envelope `"abc"` with the
verbatim serializer/parser pair. -/
theorem c5_sse_roundtrip_witness :
    sendMessageStreamingDecode verbatimParse [serverStream (fun v => v) ["abc".toList]] =
      ["abc".toList] := by
  refine c5_sse_roundtrip verbatimParse (fun v => v) ["abc".toList] ?_
  intro e he
  rw [List.mem_singleton.1 he]
  refine ⟨rfl, ?_, ?_, ?_⟩
  · decide
  · decide
  · decide

/-- C6: the yielded envelope sequence of both client decode loops depends
only on the concatenation of the received byte chunks — the trailing partial
frame is retained in the rolling buffer until its delimiter arrives — and the
`sendTaskSubscribe` loop yields exactly the per-frame parses of all completed
frames, so a frame whose payload fails to parse (`subFrameValue` returns
`none`) is skipped while all later frames are still decoded. -/
theorem c6_decode_partition_independent (parse : List Char → Option V)
    (cs cs2 : List (List Char)) (h : cs.flatten = cs2.flatten) :
    (sendTaskSubscribeDecode parse cs = sendTaskSubscribeDecode parse cs2 ∧
        sendMessageStreamingDecode parse cs = sendMessageStreamingDecode parse cs2) ∧
      sendTaskSubscribeDecode parse cs =
        ((splitNN cs.flatten).dropLast).filterMap (subFrameValue parse) := by
  refine ⟨⟨?_, ?_⟩, ?_⟩
  · unfold sendTaskSubscribeDecode
    rw [feedChunks_flatten, feedChunks_flatten, h]
  · unfold sendMessageStreamingDecode
    rw [feedChunks_flatten, feedChunks_flatten, h]
  · unfold sendTaskSubscribeDecode
    rw [feedChunks_flatten]

/-- C6 witness: the same three frames delivered in one chunk or split at
arbitrary byte boundaries (one of them inside the delimiter, one inside a
frame) decode identically, the middle unparseable frame being skipped. -/
theorem c6_decode_partition_independent_witness :
    sendTaskSubscribeDecode verbatimParse ["data: x\n".toList, "\nda".toList, "tay\n\ndata: z\n\n".toList] =
      sendTaskSubscribeDecode verbatimParse ["data: x\n\ndatay\n\ndata: z\n\n".toList] := by
  have h := (c6_decode_partition_independent verbatimParse
    ["data: x\n".toList, "\nda".toList, "tay\n\ndata: z\n\n".toList]
    ["data: x\n\ndatay\n\ndata: z\n\n".toList] (by decide)).1.1
  exact h

end A2A
